import Mathlib

/-!
Verification of the ai-manager moderation pipeline (Koishi plugin).

The repository holds near-duplicate revisions of one design:
* revision 1 (src/src/index.ts, first part): `callAI` with retry/backoff and
  candidate-ordered JSON extraction, `processViolations` with timestamp sort,
  a single batch timer computed as `min(inactivityTimeout, maxWait remaining)`;
* revision 2 (src/src/index.ts, second part): `triggerAnalysis(false)` slicing
  the pending queue into `maxBatchSize` chunks, `callAI` that catches every
  failure, returns the empty list on all failure paths, and passes the parsed
  `violations` value through without an array check;
* revision 3 (src/unnamed/part_000): `ViolationGroup` records with a signed
  `action` magnitude selecting mute (positive) vs kick (negative).

Definitions below are shallow embeddings of these functions; timers are
modelled as armed-flags / fire-times, the HTTP judge as an outcome parameter,
and `JSON.parse` (a host library) as an abstract parse function at its
interface — producing, where the dynamic typing matters, values of a small
`Json` universe (numbers as integers) so that unchecked property accesses
and non-array results are representable.
-/

namespace AiManager

/-- One inbound chat message as stored by the middleware (interface
`MessageInfo` in all revisions). -/
structure MessageInfo where
  userId : String
  userName : String
  channelId : String
  guildId : String
  messageId : String
  content : String
  timestamp : Int
deriving DecidableEq, Repr

/-- Judge output record of revision 1 (`interface Violation`): a single
referenced message id, a reason, an optional mute duration in seconds. -/
structure Violation where
  id : String
  reason : String
  mute : Option Int
deriving DecidableEq, Repr

/-- Judge output record of revision 3 (`interface ViolationGroup`): subject
user, reason, signed action magnitude, referenced message ids. -/
structure ViolationGroup where
  user : String
  reason : String
  action : Int
  ids : List String
deriving DecidableEq, Repr

/-- The `while (messages.length >= maxBatchSize) splice(0, maxBatchSize)`
loop of revision 2 `triggerAnalysis(false)` (index.ts lines 547-550): slice
the oldest `maxB` messages off the front while the queue still meets the
threshold; returns the completed batches in submission order and the
remaining pending messages. -/
def sliceBatches (maxB : Nat) (msgs : List MessageInfo) :
    List (List MessageInfo) × List MessageInfo :=
  if h : 1 ≤ maxB ∧ maxB ≤ msgs.length then
    let rest := sliceBatches maxB (msgs.drop maxB)
    (msgs.take maxB :: rest.1, rest.2)
  else ([], msgs)
termination_by msgs.length
decreasing_by
  simp only [List.length_drop]
  omega

/-- Events driving the batch accumulator: a middleware `offer` of one
message, a whole-batch flush (revision 1/3 `triggerAnalysis`, timer fire, or
the dispose drain), or revision 2's size-threshold slicing flush. -/
inductive AccEvent
  | offer (m : MessageInfo)
  | flushAll
  | flushSlices
deriving DecidableEq, Repr

/-- Messages accepted into the pending batch by a sequence of events. -/
def offeredOf (evs : List AccEvent) : List MessageInfo :=
  evs.filterMap fun e =>
    match e with
    | .offer m => some m
    | _ => none

/-- Accumulator state: the mutable pending queue (`messageBatch` /
`globalBatch.messages`) plus the snapshots handed to `callAI` so far. -/
structure AccState where
  pending : List MessageInfo
  analyzed : List (List MessageInfo)
deriving DecidableEq, Repr

/-- One accumulator transition. `offer` appends (middleware push);
`flushAll` detaches the whole pending snapshot and empties the queue
(`messagesToAnalyze = [...messageBatch]; messageBatch = []`), doing nothing
when the queue is empty (`if (messageBatch.length === 0) return`);
`flushSlices` is revision 2's slicing trigger. -/
def accStep (maxB : Nat) (s : AccState) : AccEvent → AccState
  | .offer m => ⟨s.pending ++ [m], s.analyzed⟩
  | .flushAll =>
      if s.pending.isEmpty then s else ⟨[], s.analyzed ++ [s.pending]⟩
  | .flushSlices =>
      if s.pending.isEmpty then s
      else ⟨(sliceBatches maxB s.pending).2,
            s.analyzed ++ (sliceBatches maxB s.pending).1⟩

/-- Run the accumulator from the empty initial state. -/
def accRun (maxB : Nat) (evs : List AccEvent) : AccState :=
  evs.foldl (accStep maxB) ⟨[], []⟩

/-- Pending-batch state of revision 2 (`globalBatch` plus its two timers,
modelled as armed flags) together with the analyzed snapshots. -/
structure V2State where
  messages : List MessageInfo
  inactivityArmed : Bool
  maxWaitArmed : Bool
  analyzed : List (List MessageInfo)
deriving DecidableEq, Repr

/-- Revision 2 `triggerAnalysis(false)` (index.ts lines 536-555): return on
empty queue, clear both timers, slice while the threshold is met, then re-arm
both timers exactly when a remainder stays pending. -/
def trigSlices (maxB : Nat) (s : V2State) : V2State :=
  if s.messages.isEmpty then s
  else
    let sliced := sliceBatches maxB s.messages
    if sliced.2.isEmpty then ⟨sliced.2, false, false, s.analyzed ++ sliced.1⟩
    else ⟨sliced.2, true, true, s.analyzed ++ sliced.1⟩

/-- Revision 2 middleware body after filtering (index.ts lines 561-577):
arm the max-wait timer when the queue was empty, re-arm the inactivity
timer, push the message, and run the slicing trigger when the queue reaches
`maxBatchSize`. -/
def v2Offer (maxB : Nat) (s : V2State) (m : MessageInfo) : V2State :=
  let maxW := s.maxWaitArmed || s.messages.isEmpty
  let msgs := s.messages ++ [m]
  if maxB ≤ msgs.length then trigSlices maxB ⟨msgs, true, maxW, s.analyzed⟩
  else ⟨msgs, true, maxW, s.analyzed⟩

/-- Offer a sequence of messages to the revision 2 middleware. -/
def v2OfferAll (maxB : Nat) (s : V2State) (msgs : List MessageInfo) : V2State :=
  msgs.foldl (v2Offer maxB) s

/-- Revision 1 batching configuration (index.ts lines 85-90): `maxBatchSize`
messages, `inactivityTimeout` and `maxBatchWaitTime` in seconds. -/
structure V1Config where
  maxBatchSize : Nat
  inactivityTimeout : Int
  maxBatchWaitTime : Int
deriving DecidableEq, Repr

/-- The timeout revision 1 computes on each offer (index.ts line 247):
`min(inactivityTimeout * 1000, maxBatchWaitTime * 1000 - timeSinceBatchStart)`. -/
def nextTimeoutOf (cfg : V1Config) (batchStart now : Int) : Int :=
  min (cfg.inactivityTimeout * 1000) (cfg.maxBatchWaitTime * 1000 - (now - batchStart))

/-- Result of revision 1's timer re-arm step: either a timer scheduled to
fire at `fireTime`, or an immediate synchronous flush. -/
inductive TimerOutcome
  | flushNow
  | armed (fireTime : Int)
deriving DecidableEq, Repr

/-- Revision 1 timer logic (index.ts lines 248-252): arm a timer for the
computed timeout if it is positive, otherwise flush immediately. -/
def offerTimer (cfg : V1Config) (batchStart now : Int) : TimerOutcome :=
  if 0 < nextTimeoutOf cfg batchStart now then
    .armed (now + nextTimeoutOf cfg batchStart now)
  else .flushNow

/-- Event-loop simulation of revision 1's single-timer batching for one
batch: given the armed fire time and current batch size, process the
remaining arrival times and return the instant at which the batch is
flushed. An arrival at or after the fire time lets the timer fire first; an
arrival reaching `maxBatchSize` flushes synchronously (index.ts lines
239-242); otherwise the timer is cleared and re-armed (lines 244-252). -/
def flushSim (cfg : V1Config) (batchStart : Int) :
    Int → Nat → List Int → Int
  | fireTime, _, [] => fireTime
  | fireTime, count, t :: ts =>
    if fireTime ≤ t then fireTime
    else if cfg.maxBatchSize ≤ count + 1 then t
    else
      match offerTimer cfg batchStart t with
      | .flushNow => t
      | .armed f => flushSim cfg batchStart f (count + 1) ts

/-- Flush time of the batch opened by a first arrival at `t0` followed by
the arrivals `rest` (revision 1 middleware: `batchStartTime = Date.now()`
on the first message). -/
def firstFlushTime (cfg : V1Config) (t0 : Int) (rest : List Int) : Int :=
  if cfg.maxBatchSize ≤ 1 then t0
  else
    match offerTimer cfg t0 t0 with
    | .flushNow => t0
    | .armed f => flushSim cfg t0 f 1 rest

/-- Session attributes consulted by the middleware filter (revision 1
index.ts line 228, revision 3 part_000 line 208). -/
structure SessionFlags where
  isDirect : Bool
  hasGuildId : Bool
  authorIsBot : Bool
  whitelisted : Bool
  fromTarget : Bool
deriving DecidableEq, Repr

/-- The filter condition `session.isDirect || !session.guildId ||
session.author.isBot || whitelist.includes(userId) || session.cid === Target`. -/
def filteredOut (f : SessionFlags) : Bool :=
  f.isDirect || !f.hasGuildId || f.authorIsBot || f.whitelisted || f.fromTarget

/-- Which branch the revision 1 middleware took for a session. -/
inductive MwV1Step
  | skip
  | sizeFlush
  | timerArmed (fireTime : Int)
  | immediateFlush
deriving DecidableEq, Repr

/-- Revision 1 middleware (index.ts lines 227-254): every branch ends in
`return next()`; the second component records that `next` was called and
returned. -/
def middlewareV1 (cfg : V1Config) (f : SessionFlags) (batchLen : Nat)
    (batchStart now : Int) : MwV1Step × Bool :=
  if filteredOut f then (.skip, true)
  else
    let start := if batchLen = 0 then now else batchStart
    if cfg.maxBatchSize ≤ batchLen + 1 then (.sizeFlush, true)
    else
      match offerTimer cfg start now with
      | .armed fi => (.timerArmed fi, true)
      | .flushNow => (.immediateFlush, true)

/-- Untyped JSON values as returned by the host `JSON.parse` (numbers
modelled as integers, which covers every value the claims exercise). -/
inductive Json
  | null
  | bool (b : Bool)
  | num (n : Int)
  | str (s : String)
  | arr (elems : List Json)
  | obj (fields : List (String × Json))

/-- JavaScript truthiness of a JSON value (`x || y` keeps `x` iff truthy):
`null`, `false`, `0` and the empty string are falsy; arrays and objects are
always truthy. -/
def jsTruthy : Json → Bool
  | .null => false
  | .bool b => b
  | .num n => n != 0
  | .str s => s != ""
  | .arr _ => true
  | .obj _ => true

/-- `Array.isArray` — the shape check revision 1 performs on parse results
and revision 2 omits; used to state what "resolves with a list" means. -/
def Json.isArr : Json → Bool
  | .arr _ => true
  | _ => false

/-- Field lookup in a parsed JSON object. -/
def lookupField : List (String × Json) → String → Option Json
  | [], _ => none
  | (k, v) :: rest, name => if k = name then some v else lookupField rest name

/-- JavaScript property access `j.name`: throws a TypeError on `null`
(modelled as `Except.error`), yields the field on an object, and yields
`undefined` (modelled as `none`) on every other value. -/
def fieldAccess : Json → String → Except Unit (Option Json)
  | .null, _ => .error ()
  | .obj fields, name => .ok (lookupField fields name)
  | _, _ => .ok none

/-- `violation.ids.find(...)` at part_000 line 164, outside any try/catch:
the access throws on `null`, and calling `.find` throws on anything that is
not an array (including `undefined` when the field is absent); only a
parsed object whose `ids` field is an array proceeds. -/
def idsOf : Json → Except Unit (List Json)
  | .obj fields =>
    match lookupField fields "ids" with
    | some (.arr l) => .ok l
    | _ => .error ()
  | _ => .error ()

/-- Outcome of awaiting revision 3 `triggerAnalysis` from the middleware:
the promise completed, it rejected with an uncaught exception, or it is
still pending (the uncapped retry loop has not produced a reply). -/
inductive TrigOutcome
  | completed
  | thrown
  | pending
deriving DecidableEq, Repr

/-- One judge-reply round as part_000's retry loop observes it: a failure
(transport error, missing or empty content — retried), or an arrived reply
carrying the parsed violation array (empty when nothing parsed, since the
initialized `violations = []` is truthy and counts as success). -/
inductive P0Reply
  | fail
  | reply (violations : List Json)

/-- The dispatch loop of part_000 `triggerAnalysis` (lines 163-200): for
each parsed record, `violation.ids.find` (line 164) runs outside any
try/catch, so a record whose `ids` is not an array throws out of the
function; all per-action capability calls are `.catch`-guarded and cannot
throw uncaught, so a record with an array `ids` always proceeds. -/
def p0ProcessViolations : List Json → TrigOutcome
  | [] => .completed
  | v :: rest =>
    match idsOf v with
    | .error _ => .thrown
    | .ok _ => p0ProcessViolations rest

/-- The retry loop of part_000 `triggerAnalysis` (lines 120-159) followed
by dispatch: failures retry without cap, so an exhausted reply stream
leaves the await pending forever; an arrived reply always counts as
success (`if (violations)` is truthy even for the empty array), then
dispatch runs unless there are no actions or no violations (line 160). -/
def p0Loop (hasActions : Bool) : List P0Reply → TrigOutcome
  | [] => .pending
  | .fail :: rest => p0Loop hasActions rest
  | .reply vs :: _ =>
    if !hasActions || vs.isEmpty then .completed
    else p0ProcessViolations vs

/-- part_000 `triggerAnalysis` (lines 110-202) as awaited by the
middleware: an empty batch returns immediately (line 114). -/
def p0TriggerOutcome (hasActions batchNonempty : Bool)
    (replies : List P0Reply) : TrigOutcome :=
  if !batchNonempty then .completed
  else p0Loop hasActions replies

/-- Which branch the revision 3 middleware took for a session. -/
inductive MwP0Step
  | skip
  | sizeFlush
  | timerSet (delay : Int)
  | plainStore
deriving DecidableEq, Repr

/-- Revision 3 middleware (part_000 lines 207-222): filter, push, and on
reaching the size threshold `await triggerAnalysis()` (line 215) — the
`return next()` at line 221 is reached only when that await completes, so
the called-next flag reflects the trigger outcome there; the batch-mode
timer path re-arms a timer with delay
`max(0, maxBatchTime * 1000 - (now - batchStartTime))` and returns
`next()` directly, as does the plain path. -/
def middlewareP0 (maxB : Nat) (batchMode : Bool) (maxBatchTime : Int)
    (f : SessionFlags) (batchLen : Nat) (batchStart now : Int)
    (hasActions : Bool) (replies : List P0Reply) :
    MwP0Step × Bool :=
  if filteredOut f then (.skip, true)
  else
    let len := batchLen + 1
    if maxB ≤ len then
      (.sizeFlush,
        match p0TriggerOutcome hasActions true replies with
        | .completed => true
        | _ => false)
    else if batchMode then
      let start := if len = 1 then now else batchStart
      (.timerSet (max 0 (maxBatchTime * 1000 - (now - start))), true)
    else (.plainStore, true)

/-- JavaScript whitespace as matched by the extraction regex and by
`String.prototype.trim` on the relevant replies. -/
def isWsChar (c : Char) : Bool :=
  c = ' ' || c = '\t' || c = '\n' || c = '\r'

/-- Strip leading and trailing whitespace (JS `trim` / the greedy
whitespace groups around the regex capture). -/
def trimChars (l : List Char) : List Char :=
  ((l.dropWhile isWsChar).reverse.dropWhile isWsChar).reverse

/-- Whether `needle` is an initial segment of `hay`. -/
def beginsWith : List Char → List Char → Bool
  | [], _ => true
  | _ :: _, [] => false
  | a :: as, b :: bs => a = b && beginsWith as bs

/-- Index of the first occurrence of `needle` inside `hay` (JS
`String.prototype.indexOf` for substrings). -/
def findSubIdx (needle : List Char) : List Char → Option Nat
  | [] => if beginsWith needle [] then some 0 else none
  | c :: cs =>
    if beginsWith needle (c :: cs) then some 0
    else (findSubIdx needle cs).map (· + 1)

/-- Opening delimiter of a fenced json code block. -/
def fenceOpen : List Char := "```json".data

/-- Closing delimiter of a fenced code block. -/
def fenceClose : List Char := "```".data

/-- The capture group of `content.match(/\x60\x60\x60json\s*([\s\S]*?)\s*\x60\x60\x60/)`
(index.ts line 150): the text strictly between the first occurrence of the
json fence opener and the next fence, with surrounding whitespace consumed
by the greedy whitespace groups. -/
def jsonBlockCapture (content : List Char) : Option (List Char) :=
  match findSubIdx fenceOpen content with
  | none => none
  | some i =>
    let afterOpen := content.drop (i + 7)
    match findSubIdx fenceClose afterOpen with
    | none => none
    | some j => some (trimChars (afterOpen.take j))

/-- Index of the last occurrence of character `c` (JS `lastIndexOf`). -/
def lastIdxOf (c : Char) (l : List Char) : Option Nat :=
  (findSubIdx [c] l.reverse).map (fun k => l.length - 1 - k)

/-- The substring between the first `[` and the last `]` inclusive
(index.ts lines 152-154), provided the last `]` comes strictly after the
first `[`. -/
def bracketSlice (content : List Char) : Option (List Char) :=
  match findSubIdx ['['] content with
  | none => none
  | some i =>
    match lastIdxOf ']' content with
    | none => none
    | some j => if i < j then some ((content.take (j + 1)).drop i) else none

/-- Candidate (a): the fenced-block capture, admitted only when non-empty
(`if (jsonBlockMatch?.[1])` — an empty capture is falsy, index.ts line 151). -/
def candA (content : List Char) : Option (List Char) :=
  match jsonBlockCapture content with
  | some cap => if cap.isEmpty then none else some cap
  | none => none

/-- An optional candidate as a zero- or one-element list. -/
def optToList : Option (List Char) → List (List Char)
  | some x => [x]
  | none => []

/-- The candidate strings in insertion order (index.ts lines 149-155):
fenced capture, bracket substring, the raw (trimmed) reply. -/
def candidatesOf (content : List Char) : List (List Char) :=
  optToList (candA content) ++ optToList (bracketSlice content) ++ [content]

/-- `new Set(...)` iteration order: keep the first occurrence of each
element, drop later duplicates. -/
def dedupKF : List (List Char) → List (List Char)
  | [] => []
  | x :: xs => x :: dedupKF (xs.filter (· ≠ x))
termination_by l => l.length
decreasing_by
  exact Nat.lt_succ_of_le (List.length_filter_le _ _)

/-- The `for (const jsonString of potentialStrings)` loop (index.ts lines
156-164): return the first candidate that `parse` accepts. `parse` stands
for the host's `JSON.parse` composed with the `Array.isArray` shape check:
`some` when the string parses as a JSON array of records. -/
def firstParse (parse : List Char → Option (List Violation)) :
    List (List Char) → Option (List Violation)
  | [] => none
  | c :: cs =>
    match parse c with
    | some v => some v
    | none => firstParse parse cs

/-- Full extraction over a judge reply (index.ts lines 149-164). -/
def extractViolations (parse : List Char → Option (List Violation))
    (content : List Char) : Option (List Violation) :=
  firstParse parse (dedupKF (candidatesOf content))

/-- One whole attempt body of revision 1 `callAI` after the HTTP reply
arrived (index.ts lines 147-165): trim, throw on empty content, extract,
throw when no candidate parses (the `throw new Error` reached after the
loop). `Except.error` is the thrown exception caught by the retry handler. -/
def attemptBody (parse : List Char → Option (List Violation))
    (rawContent : Option (List Char)) : Except Unit (List Violation) :=
  match rawContent with
  | none => .error ()
  | some raw =>
    let content := trimChars raw
    if content.isEmpty then .error ()
    else
      match extractViolations parse content with
      | some vs => .ok vs
      | none => .error ()

/-- Outcome of one judge request as seen by revision 1's retry loop:
either a failure (transport error, timeout, empty or unparsable reply) or a
successfully extracted record list. `tStart` is `Date.now()` at the top of
the loop iteration, `tEnd` is `Date.now()` inside the catch handler. -/
inductive AIAttempt
  | fail (tStart tEnd : Int)
  | succeed (tStart : Int) (vs : List Violation)
deriving DecidableEq, Repr

/-- The time at which the loop iteration for this attempt begins. -/
def AIAttempt.startTime : AIAttempt → Int
  | .fail t _ => t
  | .succeed t _ => t

/-- Whether the attempt is a failure. -/
def AIAttempt.isFail : AIAttempt → Bool
  | .fail _ _ => true
  | .succeed _ _ => false

/-- Observable side effects of the retry loop: suspension for `ms`
milliseconds, or an outbound HTTP request. -/
inductive AIEffect
  | sleep (ms : Int)
  | post
deriving DecidableEq, Repr

/-- Revision 1 `callAI` retry loop (index.ts lines 131-171): at the top of
each iteration suspend until `retryTime` when `now < retryTime`, issue the
request, and on failure increment the attempt counter and set
`retryTime = Date.now() + 20000 + attempt * 10000` (with the incremented
counter); on success reset `retryTime` to 0 and return the records. The
result carries the effect list, the returned records (`none` while the
loop is still retrying when the supplied outcomes run out — the loop has no
retry cap), the final attempt counter, and the final `retryTime`. -/
def runLoop (attempt : Nat) (retryTime : Int) :
    List AIAttempt → List AIEffect × Option (List Violation) × Nat × Int
  | [] => ([], none, attempt, retryTime)
  | a :: rest =>
    let waitEffs : List AIEffect :=
      if a.startTime < retryTime then [.sleep (retryTime - a.startTime)] else []
    match a with
    | .fail _ tEnd =>
      let r := runLoop (attempt + 1) (tEnd + 20000 + ((attempt : Int) + 1) * 10000) rest
      (waitEffs ++ AIEffect.post :: r.1, r.2)
    | .succeed _ vs => (waitEffs ++ [AIEffect.post], some vs, attempt, 0)

/-- Revision 1 `callAI` (index.ts lines 122-172): return `[]` immediately
on an empty batch (line 123) without touching the retry state or producing
any effect; otherwise run the retry loop starting at `attempt = 0` with the
shared `retryTime`. -/
def callAI1 (retryTime : Int) (msgs : List MessageInfo)
    (attempts : List AIAttempt) : List AIEffect × Option (List Violation) × Int :=
  if msgs.isEmpty then ([], some [], retryTime)
  else
    let r := runLoop 0 retryTime attempts
    (r.1, r.2.1, r.2.2.2)

/-- The judge reply as revision 2's `callAI` observes it: the HTTP call
threw (transport error / timeout), or it returned with missing or present
`choices[0].message.content`. -/
inductive ReplyOutcome
  | transportError
  | content (c : Option String)
deriving DecidableEq, Repr

/-- The `try` block of revision 2 `callAI` (index.ts lines 450-468): a
transport error is a thrown exception; missing content returns `[]`;
otherwise `JSON.parse(responseContent).violations || []`, where `parse`
stands for the host's `JSON.parse` (`Except.error` when it throws). The
`violations` access can itself throw (on a parsed `null`), a missing or
falsy field falls back to `[]`, and a truthy field is returned as-is —
there is no `Array.isArray` check here, so the value need not be an
array. -/
def callAI2Try (parse : String → Except Unit Json) :
    ReplyOutcome → Except Unit Json
  | .transportError => .error ()
  | .content none => .ok (Json.arr [])
  | .content (some c) =>
    match parse c with
    | .error e => .error e
    | .ok j =>
      match fieldAccess j "violations" with
      | .error e => .error e
      | .ok none => .ok (Json.arr [])
      | .ok (some v) => if jsTruthy v then .ok v else .ok (Json.arr [])

/-- Revision 2 `callAI` (index.ts lines 447-473): empty batch returns `[]`
at once; every exception from the `try` block is caught and converted to
`[]` (lines 469-472), so the caller can never observe an exception. -/
def callAI2 (parse : String → Except Unit Json)
    (msgs : List MessageInfo) (reply : ReplyOutcome) :
    Except Unit Json :=
  if msgs.isEmpty then .ok (Json.arr [])
  else
    match callAI2Try parse reply with
    | .ok v => .ok v
    | .error _ => .ok (Json.arr [])

/-- `new Map(originalMessages.map(msg => [msg.messageId, msg])).get(id)`:
later entries overwrite earlier ones, so lookup yields the last message
with the given id. -/
def lookupMsg (batch : List MessageInfo) (id : String) : Option MessageInfo :=
  (batch.filter (fun m => m.messageId = id)).getLast?

/-- The sort key of revision 1 `processViolations` (index.ts line 186):
the timestamp of the violation's resolved source message (violations are
filtered to resolvable ones before sorting, so the default is never
consulted there). -/
def violTs (batch : List MessageInfo) (v : Violation) : Int :=
  match lookupMsg batch v.id with
  | some m => m.timestamp
  | none => 0

/-- Stable insertion of a violation into a timestamp-sorted list. -/
def insertByTs (batch : List MessageInfo) (v : Violation) :
    List Violation → List Violation
  | [] => [v]
  | w :: ws =>
    if violTs batch v ≤ violTs batch w then v :: w :: ws
    else w :: insertByTs batch v ws

/-- Stable sort by source-message timestamp, realizing JS
`Array.prototype.sort` with the comparator
`(a, b) => ts(a) - ts(b)` (stable, ascending). -/
def sortByTs (batch : List MessageInfo) : List Violation → List Violation
  | [] => []
  | v :: vs => insertByTs batch v (sortByTs batch vs)

/-- `sortedViolations` of revision 1 `processViolations` (index.ts lines
184-186): keep the violations whose id resolves in the batch, sorted by the
resolved message's timestamp; this is the order actions and audit entries
are produced in. -/
def dispatchOrder (vs : List Violation) (batch : List MessageInfo) :
    List Violation :=
  sortByTs batch (vs.filter (fun v => (lookupMsg batch v.id).isSome))

/-- Configurable moderation actions of revision 3 (part_000 `Config`). -/
inductive ModAction
  | recall
  | mute
  | forward
  | kick
deriving DecidableEq, Repr

/-- A punitive capability call against the subject of a violation group. -/
inductive Punishment
  | muteFor (ms : Int)
  | kickOut
deriving DecidableEq, Repr

/-- The punitive calls revision 3 executes for one violation group
(part_000 lines 169-173): `if (violation.action > 0 && Action.includes('mute'))
muteGuildMember(..., action * 1000); else if (violation.action < 0 &&
Action.includes('kick')) kickGuildMember(...)`. -/
def executedPunishments (actions : List ModAction) (v : ViolationGroup) :
    List Punishment :=
  if 0 < v.action ∧ ModAction.mute ∈ actions then [.muteFor (v.action * 1000)]
  else if v.action < 0 ∧ ModAction.kick ∈ actions then [.kickOut]
  else []

/-- Concrete parse oracle used to exercise the extraction order: accepts
exactly the string `[1]`. -/
def toyParse (s : List Char) : Option (List Violation) :=
  if s = "[1]".data then some [⟨"m1", "spam", some 60⟩] else none

theorem sliceBatches_flatten (maxB : Nat) (msgs : List MessageInfo) :
    (sliceBatches maxB msgs).1.flatten ++ (sliceBatches maxB msgs).2 = msgs := by
  induction msgs using sliceBatches.induct maxB with
  | case1 msgs h ih =>
    rw [sliceBatches, dif_pos h]
    simp only [List.flatten_cons, List.append_assoc, ih, List.take_append_drop]
  | case2 msgs h =>
    rw [sliceBatches, dif_neg h]
    simp

theorem sliceBatches_mem_length (maxB : Nat) (msgs : List MessageInfo) :
    ∀ b ∈ (sliceBatches maxB msgs).1, b.length = maxB := by
  induction msgs using sliceBatches.induct maxB with
  | case1 msgs h ih =>
    rw [sliceBatches, dif_pos h]
    intro b hb
    rcases List.mem_cons.1 hb with hb | hb
    · subst hb; exact List.length_take_of_le h.2
    · exact ih b hb
  | case2 msgs h =>
    rw [sliceBatches, dif_neg h]
    intro b hb
    simp at hb

theorem sliceBatches_rem_lt (maxB : Nat) (msgs : List MessageInfo)
    (hB : 1 ≤ maxB) : (sliceBatches maxB msgs).2.length < maxB := by
  induction msgs using sliceBatches.induct maxB with
  | case1 msgs h ih =>
    rw [sliceBatches, dif_pos h]
    exact ih
  | case2 msgs h =>
    rw [sliceBatches, dif_neg h]
    show msgs.length < maxB
    rcases not_and_or.1 h with h1 | h2
    · exact absurd hB h1
    · omega

theorem sliceBatches_exact (maxB : Nat) (msgs : List MessageInfo)
    (hB : 1 ≤ maxB) (hlen : msgs.length = maxB) :
    sliceBatches maxB msgs = ([msgs], []) := by
  rw [sliceBatches, dif_pos ⟨hB, le_of_eq hlen.symm⟩]
  rw [sliceBatches, dif_neg (by simp [hlen]; omega)]
  simp [List.take_of_length_le (le_of_eq hlen), List.drop_eq_nil_of_le (le_of_eq hlen)]

theorem foldl_accStep_flatten (maxB : Nat) (evs : List AccEvent) :
    ∀ s : AccState,
      (evs.foldl (accStep maxB) s).analyzed.flatten ++ (evs.foldl (accStep maxB) s).pending
        = s.analyzed.flatten ++ (s.pending ++ offeredOf evs) := by
  induction evs with
  | nil => intro s; simp [offeredOf]
  | cons e rest ih =>
    intro s
    cases e with
    | offer m =>
      rw [List.foldl_cons, ih]
      simp [accStep, offeredOf]
    | flushAll =>
      rw [List.foldl_cons, ih]
      by_cases hp : s.pending.isEmpty
      · rw [List.isEmpty_iff] at hp
        simp [accStep, List.isEmpty_iff, hp, offeredOf]
      · simp only [accStep, hp, if_false, offeredOf]
        simp
    | flushSlices =>
      rw [List.foldl_cons, ih]
      by_cases hp : s.pending.isEmpty
      · rw [List.isEmpty_iff] at hp
        simp [accStep, List.isEmpty_iff, hp, offeredOf]
      · have hstep : accStep maxB s AccEvent.flushSlices
            = ⟨(sliceBatches maxB s.pending).2,
               s.analyzed ++ (sliceBatches maxB s.pending).1⟩ := by
          simp [accStep, hp]
        rw [hstep]
        have hs := sliceBatches_flatten maxB s.pending
        simp only [offeredOf, List.filterMap_cons]
        simp only [List.flatten_append, List.append_assoc]
        rw [← List.append_assoc (sliceBatches maxB s.pending).1.flatten, hs]

/-- C1: every message accepted into the pending batch is handed to exactly
one analyze/callAI snapshot: the analyzed snapshots concatenated with the
still-pending queue reproduce the offered sequence, distinct offered
messages never occur in two analyzed batches, and after a final drain the
total number of messages across all snapshots equals the number offered. -/
theorem accumulator_no_loss_no_duplication (maxB : Nat) (evs : List AccEvent)
    (h : (offeredOf evs).Nodup) :
    (accRun maxB evs).analyzed.flatten ++ (accRun maxB evs).pending = offeredOf evs
    ∧ (accRun maxB evs).analyzed.Pairwise List.Disjoint
    ∧ (accRun maxB (evs ++ [AccEvent.flushAll])).analyzed.flatten.length
        = (offeredOf evs).length := by
  have h1 : (accRun maxB evs).analyzed.flatten ++ (accRun maxB evs).pending
      = offeredOf evs := by
    have := foldl_accStep_flatten maxB evs ⟨[], []⟩
    simpa [accRun] using this
  refine ⟨h1, ?_, ?_⟩
  · have hn : ((accRun maxB evs).analyzed.flatten ++ (accRun maxB evs).pending).Nodup := by
      rw [h1]; exact h
    exact (List.nodup_flatten.1 hn.of_append_left).2
  · have h2 : accRun maxB (evs ++ [AccEvent.flushAll])
        = accStep maxB (accRun maxB evs) AccEvent.flushAll := by
      simp [accRun, List.foldl_append]
    rw [h2]
    by_cases hp : (accRun maxB evs).pending.isEmpty
    · rw [List.isEmpty_iff] at hp
      have : (accRun maxB evs).analyzed.flatten = offeredOf evs := by
        rw [← h1, hp, List.append_nil]
      simp [accStep, List.isEmpty_iff, hp, this]
    · have hstep : accStep maxB (accRun maxB evs) AccEvent.flushAll
          = ⟨[], (accRun maxB evs).analyzed ++ [(accRun maxB evs).pending]⟩ := by
        simp [accStep, hp]
      rw [hstep, ← h1]
      simp

theorem c1_witness :
    (offeredOf [AccEvent.offer ⟨"u1", "n1", "p:c1", "g1", "m1", "hi", 1⟩,
        AccEvent.offer ⟨"u2", "n2", "p:c1", "g1", "m2", "yo", 2⟩,
        AccEvent.flushAll,
        AccEvent.offer ⟨"u3", "n3", "p:c1", "g1", "m3", "ok", 3⟩,
        AccEvent.offer ⟨"u4", "n4", "p:c1", "g1", "m4", "hm", 4⟩,
        AccEvent.flushSlices]).Nodup
    ∧ ((accRun 2 [AccEvent.offer ⟨"u1", "n1", "p:c1", "g1", "m1", "hi", 1⟩,
        AccEvent.offer ⟨"u2", "n2", "p:c1", "g1", "m2", "yo", 2⟩,
        AccEvent.flushAll,
        AccEvent.offer ⟨"u3", "n3", "p:c1", "g1", "m3", "ok", 3⟩,
        AccEvent.offer ⟨"u4", "n4", "p:c1", "g1", "m4", "hm", 4⟩,
        AccEvent.flushSlices]).analyzed.flatten
      ++ (accRun 2 [AccEvent.offer ⟨"u1", "n1", "p:c1", "g1", "m1", "hi", 1⟩,
        AccEvent.offer ⟨"u2", "n2", "p:c1", "g1", "m2", "yo", 2⟩,
        AccEvent.flushAll,
        AccEvent.offer ⟨"u3", "n3", "p:c1", "g1", "m3", "ok", 3⟩,
        AccEvent.offer ⟨"u4", "n4", "p:c1", "g1", "m4", "hm", 4⟩,
        AccEvent.flushSlices]).pending
      = offeredOf [AccEvent.offer ⟨"u1", "n1", "p:c1", "g1", "m1", "hi", 1⟩,
        AccEvent.offer ⟨"u2", "n2", "p:c1", "g1", "m2", "yo", 2⟩,
        AccEvent.flushAll,
        AccEvent.offer ⟨"u3", "n3", "p:c1", "g1", "m3", "ok", 3⟩,
        AccEvent.offer ⟨"u4", "n4", "p:c1", "g1", "m4", "hm", 4⟩,
        AccEvent.flushSlices]) :=
  ⟨by decide,
   (accumulator_no_loss_no_duplication 2
     [AccEvent.offer ⟨"u1", "n1", "p:c1", "g1", "m1", "hi", 1⟩,
      AccEvent.offer ⟨"u2", "n2", "p:c1", "g1", "m2", "yo", 2⟩,
      AccEvent.flushAll,
      AccEvent.offer ⟨"u3", "n3", "p:c1", "g1", "m3", "ok", 3⟩,
      AccEvent.offer ⟨"u4", "n4", "p:c1", "g1", "m4", "hm", 4⟩,
      AccEvent.flushSlices] (by decide)).1⟩

theorem v2OfferAll_fill (maxB : Nat) :
    ∀ (msgs : List MessageInfo) (s : V2State), msgs ≠ [] → s.messages ≠ [] →
      s.inactivityArmed = true → s.maxWaitArmed = true →
      s.messages.length + msgs.length = maxB →
      v2OfferAll maxB s msgs = ⟨[], false, false, s.analyzed ++ [s.messages ++ msgs]⟩ := by
  intro msgs
  induction msgs with
  | nil => intro s hne; exact absurd rfl hne
  | cons m rest ih =>
    intro s _ hsm hi hw hsum
    cases s with
    | mk smsgs sInact sMaxW sAn =>
    simp only at hsm hi hw hsum
    subst hi; subst hw
    cases rest with
    | nil =>
      have hlen : (smsgs ++ [m]).length = maxB := by
        simp only [List.length_append, List.length_cons, List.length_nil] at hsum ⊢
        omega
      have hB : 1 ≤ maxB := by
        have : 1 ≤ smsgs.length := List.length_pos_of_ne_nil hsm
        omega
      have hne2 : ¬(smsgs ++ [m]).isEmpty = true := by
        simp
      simp only [v2OfferAll, List.foldl_cons, List.foldl_nil, v2Offer]
      rw [if_pos (le_of_eq hlen.symm)]
      simp only [trigSlices, hne2, Bool.false_eq_true, if_false,
        sliceBatches_exact maxB (smsgs ++ [m]) hB hlen]
      simp
    | cons r rs =>
      have hlt : ¬ maxB ≤ (smsgs ++ [m]).length := by
        simp only [List.length_append, List.length_cons, List.length_nil] at hsum ⊢
        omega
      have hstep : v2Offer maxB ⟨smsgs, true, true, sAn⟩ m
          = ⟨smsgs ++ [m], true, true, sAn⟩ := by
        simp only [v2Offer]
        rw [if_neg hlt]
        simp
      have hfold : v2OfferAll maxB ⟨smsgs, true, true, sAn⟩ (m :: r :: rs)
          = v2OfferAll maxB (v2Offer maxB ⟨smsgs, true, true, sAn⟩ m) (r :: rs) := rfl
      rw [hfold, hstep,
        ih ⟨smsgs ++ [m], true, true, sAn⟩ (by simp) (by simp) rfl rfl
          (by simp only [List.length_append, List.length_cons, List.length_nil] at hsum ⊢; omega)]
      simp

/-- C2: revision 2's size-threshold flush slices exactly the oldest
`maxBatchSize` messages per completed batch, repeating while the threshold
is met, with the remainder (shorter than the threshold) left pending; in
particular offering exactly `maxBatchSize` messages synchronously to an
empty accumulator submits exactly that one batch, leaves nothing pending,
and arms no timer. -/
theorem size_threshold_slicing (maxB : Nat) (pending msgs : List MessageInfo)
    (hB : 1 ≤ maxB) (hlen : msgs.length = maxB) :
    (∀ b ∈ (sliceBatches maxB pending).1, b.length = maxB)
    ∧ (sliceBatches maxB pending).1.flatten ++ (sliceBatches maxB pending).2 = pending
    ∧ (sliceBatches maxB pending).2.length < maxB
    ∧ v2OfferAll maxB ⟨[], false, false, []⟩ msgs = ⟨[], false, false, [msgs]⟩ := by
  refine ⟨sliceBatches_mem_length maxB pending, sliceBatches_flatten maxB pending,
    sliceBatches_rem_lt maxB pending hB, ?_⟩
  cases msgs with
  | nil => simp at hlen; omega
  | cons m rest =>
    by_cases h1 : maxB ≤ 1
    · have hmax : maxB = 1 := le_antisymm h1 hB
      have hrest : rest = [] := by
        rw [hmax] at hlen
        simpa using hlen
      subst hrest; subst hmax
      simp only [v2OfferAll, List.foldl_cons, List.foldl_nil, v2Offer]
      norm_num
      simp only [trigSlices]
      rw [sliceBatches_exact 1 [m] le_rfl (by simp)]
      simp
    · have hstep : v2Offer maxB ⟨[], false, false, []⟩ m
          = ⟨[m], true, true, []⟩ := by
        simp only [v2Offer]
        rw [if_neg (by simp; omega)]
        simp
      have hrest : rest ≠ [] := by
        intro hr
        subst hr
        simp at hlen
        omega
      simp only [v2OfferAll, List.foldl_cons]
      rw [show (List.foldl (v2Offer maxB) (v2Offer maxB ⟨[], false, false, []⟩ m) rest)
            = v2OfferAll maxB (v2Offer maxB ⟨[], false, false, []⟩ m) rest from rfl,
        hstep]
      rw [v2OfferAll_fill maxB rest ⟨[m], true, true, []⟩ hrest (by simp) rfl rfl
        (by simp at hlen ⊢; omega)]
      simp

theorem c2_witness :
    1 ≤ 2
    ∧ ([(⟨"u5", "n5", "p:c2", "g2", "m5", "aa", 5⟩ : MessageInfo),
        ⟨"u6", "n6", "p:c2", "g2", "m6", "bb", 6⟩] : List MessageInfo).length = 2
    ∧ ((∀ b ∈ (sliceBatches 2 [(⟨"u5", "n5", "p:c2", "g2", "m5", "aa", 5⟩ : MessageInfo),
          ⟨"u6", "n6", "p:c2", "g2", "m6", "bb", 6⟩,
          ⟨"u7", "n7", "p:c2", "g2", "m7", "cc", 7⟩]).1, b.length = 2)
      ∧ (sliceBatches 2 [(⟨"u5", "n5", "p:c2", "g2", "m5", "aa", 5⟩ : MessageInfo),
          ⟨"u6", "n6", "p:c2", "g2", "m6", "bb", 6⟩,
          ⟨"u7", "n7", "p:c2", "g2", "m7", "cc", 7⟩]).1.flatten
        ++ (sliceBatches 2 [(⟨"u5", "n5", "p:c2", "g2", "m5", "aa", 5⟩ : MessageInfo),
          ⟨"u6", "n6", "p:c2", "g2", "m6", "bb", 6⟩,
          ⟨"u7", "n7", "p:c2", "g2", "m7", "cc", 7⟩]).2
        = [(⟨"u5", "n5", "p:c2", "g2", "m5", "aa", 5⟩ : MessageInfo),
          ⟨"u6", "n6", "p:c2", "g2", "m6", "bb", 6⟩,
          ⟨"u7", "n7", "p:c2", "g2", "m7", "cc", 7⟩]
      ∧ (sliceBatches 2 [(⟨"u5", "n5", "p:c2", "g2", "m5", "aa", 5⟩ : MessageInfo),
          ⟨"u6", "n6", "p:c2", "g2", "m6", "bb", 6⟩,
          ⟨"u7", "n7", "p:c2", "g2", "m7", "cc", 7⟩]).2.length < 2
      ∧ v2OfferAll 2 ⟨[], false, false, []⟩
          [(⟨"u5", "n5", "p:c2", "g2", "m5", "aa", 5⟩ : MessageInfo),
           ⟨"u6", "n6", "p:c2", "g2", "m6", "bb", 6⟩]
        = ⟨[], false, false,
           [[(⟨"u5", "n5", "p:c2", "g2", "m5", "aa", 5⟩ : MessageInfo),
             ⟨"u6", "n6", "p:c2", "g2", "m6", "bb", 6⟩]]⟩) :=
  ⟨by decide, by decide,
   size_threshold_slicing 2
     [⟨"u5", "n5", "p:c2", "g2", "m5", "aa", 5⟩,
      ⟨"u6", "n6", "p:c2", "g2", "m6", "bb", 6⟩,
      ⟨"u7", "n7", "p:c2", "g2", "m7", "cc", 7⟩]
     [⟨"u5", "n5", "p:c2", "g2", "m5", "aa", 5⟩,
      ⟨"u6", "n6", "p:c2", "g2", "m6", "bb", 6⟩]
     (by decide) (by decide)⟩

theorem flushSim_le (cfg : V1Config) (batchStart : Int) :
    ∀ (ts : List Int) (fireTime : Int) (count : Nat),
      fireTime ≤ batchStart + cfg.maxBatchWaitTime * 1000 →
      flushSim cfg batchStart fireTime count ts
        ≤ batchStart + cfg.maxBatchWaitTime * 1000 := by
  intro ts
  induction ts with
  | nil => intro f c hf; simpa [flushSim] using hf
  | cons t ts ih =>
    intro f c hf
    simp only [flushSim]
    by_cases h1 : f ≤ t
    · rw [if_pos h1]; exact hf
    · rw [if_neg h1]
      by_cases h2 : cfg.maxBatchSize ≤ c + 1
      · rw [if_pos h2]; omega
      · rw [if_neg h2]
        by_cases h3 : 0 < nextTimeoutOf cfg batchStart t
        · simp only [offerTimer, if_pos h3]
          refine ih _ _ ?_
          have hmin : nextTimeoutOf cfg batchStart t
              ≤ cfg.maxBatchWaitTime * 1000 - (t - batchStart) :=
            min_le_right _ _
          omega
        · simp only [offerTimer, if_neg h3]
          omega

/-- C6: under any arrival pattern (in particular continuous arrival that
keeps postponing the inactivity flush), revision 1 flushes the pending
batch no later than `maxBatchWaitTime` after its first message arrived;
and whenever the remaining time to the max-wait deadline is non-positive
at offer time, the middleware flushes immediately instead of scheduling a
non-positive timeout. -/
theorem max_wait_bound (cfg : V1Config) (t0 : Int) (rest : List Int)
    (hI : 0 < cfg.inactivityTimeout) (hW : 0 < cfg.maxBatchWaitTime)
    (hCont : (t0 :: rest).Chain' (fun a b => b - a < cfg.inactivityTimeout * 1000)) :
    firstFlushTime cfg t0 rest ≤ t0 + cfg.maxBatchWaitTime * 1000
    ∧ ∀ bs now : Int, cfg.maxBatchWaitTime * 1000 - (now - bs) ≤ 0 →
        offerTimer cfg bs now = TimerOutcome.flushNow := by
  constructor
  · simp only [firstFlushTime]
    by_cases h1 : cfg.maxBatchSize ≤ 1
    · rw [if_pos h1]; omega
    · rw [if_neg h1]
      by_cases h3 : 0 < nextTimeoutOf cfg t0 t0
      · simp only [offerTimer, if_pos h3]
        refine flushSim_le cfg t0 rest _ 1 ?_
        have hmin : nextTimeoutOf cfg t0 t0
            ≤ cfg.maxBatchWaitTime * 1000 - (t0 - t0) :=
          min_le_right _ _
        omega
      · simp only [offerTimer, if_neg h3]
        omega
  · intro bs now h
    have hmin : nextTimeoutOf cfg bs now
        ≤ cfg.maxBatchWaitTime * 1000 - (now - bs) :=
      min_le_right _ _
    rw [offerTimer, if_neg (by omega)]

theorem c6_witness :
    (0 : Int) < 300 ∧ (0 : Int) < 600
    ∧ firstFlushTime ⟨128, 300, 600⟩ 0 [] ≤ 0 + 600 * 1000 :=
  ⟨by decide, by decide,
   (max_wait_bound ⟨128, 300, 600⟩ 0 [] (by decide) (by decide)
     (List.chain'_singleton 0)).1⟩

theorem c10_counterexample :
    (middlewareP0 1 false 300 ⟨false, true, false, false, false⟩ 0 0 0 true
        [P0Reply.reply [Json.obj [("user", Json.str "u1"),
          ("reason", Json.str "spam"), ("action", Json.num 60)]]]).2 = false
    ∧ (middlewareP0 1 false 300 ⟨false, true, false, false, false⟩ 0 0 0 true
        [P0Reply.fail]).2 = false :=
  ⟨rfl, rfl⟩

/-- C10 (amended): the revision 1 middleware calls and returns `next()` on
every session (its flush path does not await `triggerAnalysis`); the
revision 3 middleware does so on filtered sessions and on sessions below
the size threshold, while on a size-triggering session it awaits
`triggerAnalysis` and reaches `next()` exactly when that await completes —
not when the retry stream is exhausted without a reply (the await stays
pending) nor when dispatch throws on a record whose `ids` is not an
array. -/
theorem middleware_next_propagation :
    (∀ (cfg : V1Config) (f : SessionFlags) (batchLen : Nat) (batchStart now : Int),
      (middlewareV1 cfg f batchLen batchStart now).2 = true)
    ∧ (∀ (maxB : Nat) (batchMode : Bool) (maxBatchTime : Int) (f : SessionFlags)
        (batchLen : Nat) (batchStart now : Int) (hasActions : Bool)
        (replies : List P0Reply),
      filteredOut f = true →
      (middlewareP0 maxB batchMode maxBatchTime f batchLen batchStart now
        hasActions replies).2 = true)
    ∧ (∀ (maxB : Nat) (batchMode : Bool) (maxBatchTime : Int) (f : SessionFlags)
        (batchLen : Nat) (batchStart now : Int) (hasActions : Bool)
        (replies : List P0Reply),
      filteredOut f = false → batchLen + 1 < maxB →
      (middlewareP0 maxB batchMode maxBatchTime f batchLen batchStart now
        hasActions replies).2 = true)
    ∧ (∀ (maxB : Nat) (batchMode : Bool) (maxBatchTime : Int) (f : SessionFlags)
        (batchLen : Nat) (batchStart now : Int) (hasActions : Bool)
        (replies : List P0Reply),
      filteredOut f = false → maxB ≤ batchLen + 1 →
      ((middlewareP0 maxB batchMode maxBatchTime f batchLen batchStart now
          hasActions replies).2 = true
        ↔ p0TriggerOutcome hasActions true replies = TrigOutcome.completed)) := by
  refine ⟨?_, ?_, ?_, ?_⟩
  · intro cfg f batchLen batchStart now
    unfold middlewareV1
    dsimp only
    split
    · rfl
    · split
      · rfl
      · split <;> rfl
  · intro maxB batchMode maxBatchTime f batchLen batchStart now hasActions replies hf
    unfold middlewareP0
    rw [if_pos hf]
  · intro maxB batchMode maxBatchTime f batchLen batchStart now hasActions replies hf hlt
    unfold middlewareP0
    dsimp only
    rw [if_neg (by simp [hf]), if_neg (by omega)]
    split
    · rfl
    · rfl
  · intro maxB batchMode maxBatchTime f batchLen batchStart now hasActions replies hf hge
    unfold middlewareP0
    dsimp only
    rw [if_neg (by simp [hf]), if_pos hge]
    cases h3 : p0TriggerOutcome hasActions true replies <;> simp [h3]

theorem c10_witness :
    ((middlewareP0 2 false 300 ⟨false, true, false, false, false⟩ 1 0 0 true
        [P0Reply.reply []]).2 = true
      ↔ p0TriggerOutcome true true [P0Reply.reply []] = TrigOutcome.completed) :=
  middleware_next_propagation.2.2.2 2 false 300 ⟨false, true, false, false, false⟩
    1 0 0 true [P0Reply.reply []] rfl (by decide)

/-- C9: revision 1/2 `callAI` on an empty message list returns the empty
violation list immediately: no HTTP request, no suspension, and the shared
retry state is left untouched. -/
theorem empty_batch_short_circuit (retryTime : Int) (attempts : List AIAttempt) :
    callAI1 retryTime [] attempts = ([], some [], retryTime) := by
  simp [callAI1]

/-- C4: on every failed judge attempt the counter is incremented and the
shared retry time becomes `now + 20000 + attempt * 10000` (with the
incremented counter); before each attempt the client suspends until the
retry time whenever it lies in the future; attempts are unbounded (an
all-failure run never yields a result, the counter growing by one per
failure); the first success returns the records and resets the retry time
to 0. -/
theorem retry_backoff_protocol :
    (∀ (attempt : Nat) (rt tS tE : Int) (rest : List AIAttempt),
      (runLoop attempt rt (AIAttempt.fail tS tE :: rest)).2
        = (runLoop (attempt + 1) (tE + 20000 + ((attempt : Int) + 1) * 10000) rest).2)
    ∧ (∀ (attempt : Nat) (rt : Int) (a : AIAttempt) (rest : List AIAttempt),
      (runLoop attempt rt (a :: rest)).1.head?
        = some (if a.startTime < rt then AIEffect.sleep (rt - a.startTime)
                else AIEffect.post))
    ∧ (∀ (attempt : Nat) (rt : Int) (fails : List AIAttempt),
      (∀ x ∈ fails, x.isFail = true) →
      (runLoop attempt rt fails).2.1 = none
        ∧ (runLoop attempt rt fails).2.2.1 = attempt + fails.length)
    ∧ (∀ (attempt : Nat) (rt tS : Int) (vs : List Violation) (rest : List AIAttempt),
      (runLoop attempt rt (AIAttempt.succeed tS vs :: rest)).2
        = (some vs, attempt, 0)) := by
  refine ⟨?_, ?_, ?_, ?_⟩
  · intro attempt rt tS tE rest
    rfl
  · intro attempt rt a rest
    cases a with
    | fail tS tE =>
      simp only [runLoop, AIAttempt.startTime]
      split
      · simp
      · simp
    | succeed tS vs =>
      simp only [runLoop, AIAttempt.startTime]
      split
      · simp
      · simp
  · intro attempt rt fails
    induction fails generalizing attempt rt with
    | nil => intro _; simp [runLoop]
    | cons x rest ih =>
      intro hx
      cases x with
      | fail tS tE =>
        have hr := ih (attempt + 1) (tE + 20000 + ((attempt : Int) + 1) * 10000)
          (fun y hy => hx y (List.mem_cons_of_mem _ hy))
        refine ⟨?_, ?_⟩
        · show (runLoop (attempt + 1) (tE + 20000 + ((attempt : Int) + 1) * 10000) rest).2.1 = none
          exact hr.1
        · show (runLoop (attempt + 1) (tE + 20000 + ((attempt : Int) + 1) * 10000) rest).2.2.1
              = attempt + (rest.length + 1)
          rw [hr.2]
          omega
      | succeed tS vs =>
        have := hx (AIAttempt.succeed tS vs) (List.mem_cons_self _ _)
        simp [AIAttempt.isFail] at this
  · intro attempt rt tS vs rest
    rfl

theorem c4_witness :
    (runLoop 0 0 [AIAttempt.fail 0 5, AIAttempt.fail 6 7]).2.1 = none
    ∧ (runLoop 0 0 [AIAttempt.fail 0 5, AIAttempt.fail 6 7]).2.2.1
        = 0 + ([AIAttempt.fail 0 5, AIAttempt.fail 6 7] : List AIAttempt).length :=
  retry_backoff_protocol.2.2.1 0 0 [AIAttempt.fail 0 5, AIAttempt.fail 6 7] (by decide)

theorem c5_counterexample :
    callAI2 (fun _ => Except.ok (Json.obj [("violations", Json.num 42)]))
        [⟨"u8", "n8", "p:c5", "g5", "m8", "zz", 8⟩]
        (ReplyOutcome.content (some "reply text"))
      = Except.ok (Json.num 42)
    ∧ (Json.num 42).isArr = false :=
  ⟨rfl, rfl⟩

/-- C5 (amended): revision 2 `callAI` never propagates an exception: it
resolves on every input, parse behaviour and judge-reply outcome; every
failure path (transport error, missing content, parse throw, null parse,
missing or falsy `violations` field) resolves with the empty array, while
a truthy `violations` value is passed through unchecked — a list of
records only when the judge actually supplied an array, since the code
performs no array check. -/
theorem analyze_never_throws (parse : String → Except Unit Json)
    (msgs : List MessageInfo) (reply : ReplyOutcome) :
    (∃ j : Json, callAI2 parse msgs reply = Except.ok j)
    ∧ (callAI2Try parse reply = Except.error () → msgs.isEmpty = false →
        callAI2 parse msgs reply = Except.ok (Json.arr []))
    ∧ (∀ c j v, reply = ReplyOutcome.content (some c) → parse c = Except.ok j →
        fieldAccess j "violations" = Except.ok (some v) → jsTruthy v = true →
        msgs.isEmpty = false → callAI2 parse msgs reply = Except.ok v) := by
  refine ⟨?_, ?_, ?_⟩
  · unfold callAI2
    by_cases hm : msgs.isEmpty
    · rw [if_pos hm]
      exact ⟨Json.arr [], rfl⟩
    · rw [if_neg hm]
      cases h : callAI2Try parse reply with
      | ok v => exact ⟨v, rfl⟩
      | error e => exact ⟨Json.arr [], rfl⟩
  · intro herr hm
    unfold callAI2
    rw [if_neg (by simp [hm]), herr]
  · intro c j v hreply hparse hfield htruthy hm
    have htry : callAI2Try parse reply = Except.ok v := by
      rw [hreply]
      simp only [callAI2Try, hparse, hfield, htruthy, if_true]
    unfold callAI2
    rw [if_neg (by simp [hm]), htry]

theorem c5_witness :
    callAI2 (fun _ => Except.ok (Json.obj [("violations", Json.arr [Json.str "rec"])]))
        [⟨"u8", "n8", "p:c5", "g5", "m8", "zz", 8⟩]
        (ReplyOutcome.content (some "good reply"))
      = Except.ok (Json.arr [Json.str "rec"]) :=
  (analyze_never_throws (fun _ => Except.ok (Json.obj [("violations", Json.arr [Json.str "rec"])]))
      [⟨"u8", "n8", "p:c5", "g5", "m8", "zz", 8⟩]
      (ReplyOutcome.content (some "good reply"))).2.2
    "good reply" (Json.obj [("violations", Json.arr [Json.str "rec"])])
    (Json.arr [Json.str "rec"]) rfl rfl rfl rfl rfl

/-- C8: the sign of a violation group's action magnitude selects at most
one of mute and kick (revision 3): a negative magnitude never mutes, a
positive one never kicks, never both, and the reason text never influences
the selection. -/
theorem action_sign_mutual_exclusion (actions : List ModAction) (v : ViolationGroup) :
    (v.action < 0 → ∀ ms, Punishment.muteFor ms ∉ executedPunishments actions v)
    ∧ (0 < v.action → Punishment.kickOut ∉ executedPunishments actions v)
    ∧ ¬((∃ ms, Punishment.muteFor ms ∈ executedPunishments actions v)
        ∧ Punishment.kickOut ∈ executedPunishments actions v)
    ∧ ∀ r, executedPunishments actions ⟨v.user, r, v.action, v.ids⟩
        = executedPunishments actions v := by
  refine ⟨?_, ?_, ?_, fun r => rfl⟩
  · intro hneg ms
    unfold executedPunishments
    rw [if_neg (fun hc => absurd hc.1 (by omega))]
    split
    · simp
    · simp
  · intro hpos
    unfold executedPunishments
    split
    · simp
    · rw [if_neg (fun hc => absurd hc.1 (by omega))]
      simp
  · rintro ⟨⟨ms, hms⟩, hk⟩
    by_cases h1 : 0 < v.action ∧ ModAction.mute ∈ actions
    · unfold executedPunishments at hk
      rw [if_pos h1] at hk
      simp at hk
    · unfold executedPunishments at hms
      rw [if_neg h1] at hms
      by_cases h2 : v.action < 0 ∧ ModAction.kick ∈ actions
      · rw [if_pos h2] at hms
        simp at hms
      · rw [if_neg h2] at hms
        simp at hms

theorem c8_witness :
    Punishment.muteFor 10 ∉
      executedPunishments [ModAction.mute, ModAction.kick]
        ⟨"u9", "flooding", -5, ["m9"]⟩ :=
  (action_sign_mutual_exclusion [ModAction.mute, ModAction.kick]
    ⟨"u9", "flooding", -5, ["m9"]⟩).1 (by decide) 10

theorem insertByTs_perm (batch : List MessageInfo) (v : Violation) :
    ∀ l : List Violation, (insertByTs batch v l).Perm (v :: l) := by
  intro l
  induction l with
  | nil => simp [insertByTs]
  | cons w ws ih =>
    simp only [insertByTs]
    by_cases h : violTs batch v ≤ violTs batch w
    · rw [if_pos h]
    · rw [if_neg h]
      exact (ih.cons w).trans (List.Perm.swap v w ws)

theorem sortByTs_perm (batch : List MessageInfo) :
    ∀ l : List Violation, (sortByTs batch l).Perm l := by
  intro l
  induction l with
  | nil => simp [sortByTs]
  | cons v vs ih =>
    simp only [sortByTs]
    exact (insertByTs_perm batch v (sortByTs batch vs)).trans (ih.cons v)

theorem insertByTs_sorted (batch : List MessageInfo) (v : Violation) :
    ∀ l : List Violation,
      l.Pairwise (fun a b => violTs batch a ≤ violTs batch b) →
      (insertByTs batch v l).Pairwise (fun a b => violTs batch a ≤ violTs batch b) := by
  intro l
  induction l with
  | nil => intro _; simp [insertByTs]
  | cons w ws ih =>
    intro hp
    rw [List.pairwise_cons] at hp
    simp only [insertByTs]
    by_cases hvw : violTs batch v ≤ violTs batch w
    · rw [if_pos hvw]
      refine List.Pairwise.cons ?_ (List.Pairwise.cons hp.1 hp.2)
      intro x hx
      rcases List.mem_cons.1 hx with hx | hx
      · subst hx; exact hvw
      · exact le_trans hvw (hp.1 x hx)
    · rw [if_neg hvw]
      refine List.Pairwise.cons ?_ (ih hp.2)
      intro x hx
      have hx2 := (insertByTs_perm batch v ws).mem_iff.1 hx
      rcases List.mem_cons.1 hx2 with hx2 | hx2
      · subst hx2; exact le_of_not_le hvw
      · exact hp.1 x hx2

theorem sortByTs_sorted (batch : List MessageInfo) :
    ∀ l : List Violation,
      (sortByTs batch l).Pairwise (fun a b => violTs batch a ≤ violTs batch b) := by
  intro l
  induction l with
  | nil => simp [sortByTs]
  | cons v vs ih =>
    simp only [sortByTs]
    exact insertByTs_sorted batch v (sortByTs batch vs) ih

/-- C7: revision 1 `processViolations` handles exactly the violations whose
referenced message resolves in the batch, in ascending order of the
resolved source message's timestamp, independent of the order the judge
emitted them. -/
theorem dispatch_timestamp_order (vs : List Violation) (batch : List MessageInfo) :
    (dispatchOrder vs batch).Pairwise (fun a b => violTs batch a ≤ violTs batch b)
    ∧ (dispatchOrder vs batch).Perm
        (vs.filter (fun v => (lookupMsg batch v.id).isSome))
    ∧ ∀ vs' : List Violation, vs'.Perm vs →
        (dispatchOrder vs' batch).Perm (dispatchOrder vs batch) := by
  refine ⟨sortByTs_sorted batch _, sortByTs_perm batch _, ?_⟩
  intro vs' hperm
  exact (sortByTs_perm batch _).trans
    ((hperm.filter _).trans (sortByTs_perm batch _).symm)

theorem c7_witness :
    (([⟨"mb", "rude", none⟩, ⟨"ma", "spam", some 30⟩] : List Violation).Perm
      [⟨"ma", "spam", some 30⟩, ⟨"mb", "rude", none⟩])
    ∧ (dispatchOrder [⟨"mb", "rude", none⟩, ⟨"ma", "spam", some 30⟩]
        [⟨"ua", "na", "p:c7", "g7", "ma", "x", 10⟩,
         ⟨"ub", "nb", "p:c7", "g7", "mb", "y", 5⟩]).Perm
      (dispatchOrder [⟨"ma", "spam", some 30⟩, ⟨"mb", "rude", none⟩]
        [⟨"ua", "na", "p:c7", "g7", "ma", "x", 10⟩,
         ⟨"ub", "nb", "p:c7", "g7", "mb", "y", 5⟩]) :=
  ⟨List.Perm.swap _ _ _,
   (dispatch_timestamp_order
     [⟨"ma", "spam", some 30⟩, ⟨"mb", "rude", none⟩]
     [⟨"ua", "na", "p:c7", "g7", "ma", "x", 10⟩,
      ⟨"ub", "nb", "p:c7", "g7", "mb", "y", 5⟩]).2.2
     [⟨"mb", "rude", none⟩, ⟨"ma", "spam", some 30⟩]
     (List.Perm.swap _ _ _)⟩

theorem firstParse_filter_ne (parse : List Char → Option (List Violation))
    (x : List Char) (hx : parse x = none) :
    ∀ l : List (List Char),
      firstParse parse (l.filter (· ≠ x)) = firstParse parse l := by
  intro l
  induction l with
  | nil => rfl
  | cons y ys ih =>
    by_cases hyx : y = x
    · subst hyx
      have hf : (y :: ys).filter (· ≠ y) = ys.filter (· ≠ y) := by simp
      rw [hf, ih]
      simp [firstParse, hx]
    · have hf : (y :: ys).filter (· ≠ x) = y :: ys.filter (· ≠ x) := by
        simp [hyx]
      rw [hf]
      simp only [firstParse]
      cases hy : parse y with
      | some v => rfl
      | none => exact ih

theorem firstParse_dedupKF (parse : List Char → Option (List Violation)) :
    ∀ l : List (List Char), firstParse parse (dedupKF l) = firstParse parse l := by
  intro l
  induction l using dedupKF.induct with
  | case1 => rw [dedupKF]
  | case2 x xs ih =>
    rw [dedupKF]
    simp only [firstParse]
    cases hx : parse x with
    | some v => rfl
    | none => rw [ih, firstParse_filter_ne parse x hx xs]

/-- C3: revision 1's extraction tries the candidate strings in the fixed
preference order fenced-json capture, first-to-last-bracket substring, raw
reply; the first candidate parsing as a JSON array is accepted and later
candidates are ignored; if no candidate parses the attempt is a thrown
failure feeding the retry loop. -/
theorem extraction_preference_order (parse : List Char → Option (List Violation))
    (content : List Char) :
    (∀ a v, candA content = some a → parse a = some v →
      extractViolations parse content = some v)
    ∧ (∀ s v, (∀ a ∈ candA content, parse a = none) →
        bracketSlice content = some s → parse s = some v →
        extractViolations parse content = some v)
    ∧ ((∀ a ∈ candA content, parse a = none) →
       (∀ s ∈ bracketSlice content, parse s = none) →
       extractViolations parse content = parse content)
    ∧ (∀ raw, extractViolations parse (trimChars raw) = none →
        attemptBody parse (some raw) = Except.error ()) := by
  have key : extractViolations parse content
      = firstParse parse (candidatesOf content) := by
    unfold extractViolations
    exact firstParse_dedupKF parse (candidatesOf content)
  refine ⟨?_, ?_, ?_, ?_⟩
  · intro a v hA hpa
    rw [key]
    simp [candidatesOf, optToList, hA, firstParse, hpa]
  · intro s v hAnone hB hps
    rw [key]
    cases hA : candA content with
    | none =>
      simp [candidatesOf, optToList, hA, hB, firstParse, hps]
    | some a =>
      have ha : parse a = none := hAnone a (by simp [hA])
      simp [candidatesOf, optToList, hA, hB, firstParse, ha, hps]
  · intro hAnone hBnone
    rw [key]
    cases hA : candA content with
    | none =>
      cases hB : bracketSlice content with
      | none =>
        simp only [candidatesOf, optToList, hA, hB, List.nil_append, firstParse]
        cases hc : parse content <;> simp [hc]
      | some s =>
        have hs : parse s = none := hBnone s (by simp [hB])
        simp only [candidatesOf, optToList, hA, hB, List.nil_append,
          List.singleton_append, firstParse, hs]
        cases hc : parse content <;> simp [hc]
    | some a =>
      have ha : parse a = none := hAnone a (by simp [hA])
      cases hB : bracketSlice content with
      | none =>
        simp only [candidatesOf, optToList, hA, hB, List.append_nil,
          List.singleton_append, List.nil_append, firstParse, ha]
        cases hc : parse content <;> simp [hc]
      | some s =>
        have hs : parse s = none := hBnone s (by simp [hB])
        simp only [candidatesOf, optToList, hA, hB,
          List.singleton_append, List.nil_append, firstParse, ha, hs]
        cases hc : parse content <;> simp [hc]
  · intro raw hnone
    unfold attemptBody
    by_cases he : (trimChars raw).isEmpty
    · simp [he]
    · simp [he, hnone]

theorem c3_witness :
    extractViolations toyParse
        "The judge says: ```json\n[1]\n``` end of reply".data
      = some [⟨"m1", "spam", some 60⟩] :=
  (extraction_preference_order toyParse
    "The judge says: ```json\n[1]\n``` end of reply".data).1
    "[1]".data [⟨"m1", "spam", some 60⟩] (by decide) (by decide)

end AiManager
